import Mathlib

set_option maxRecDepth 4000

/-!
Shallow embedding of the `Matrix<val_t>` class of `src/matrix.cpp`
(neural_net_cpp).  The C++ class stores a height, a width and a
row-pointer array `_data`; we model the storage as a list of rows.
Mutating member functions are modelled as pure functions returning the
post-state of `*this`; a thrown `std::domain_error` is modelled by the
`Err.shape` error value, and an unguarded out-of-bounds memory access
(undefined behaviour in C++) by `Err.ub`.  `Err.bounds` models the
`BoundsError` signal that the specification recommends but the code
never raises.  Element values are embedded as rationals (exact
arithmetic over the generic `val_t`).
-/

namespace NN

/-- Error signals: `shape` models `std::domain_error` thrown on a shape
mismatch; `bounds` models the spec's recommended `BoundsError` (never
raised by this code); `ub` models an unguarded out-of-bounds memory
access, which in C++ is undefined behaviour, not a signal. -/
inductive Err where
  | shape
  | bounds
  | ub
deriving DecidableEq, Repr

/-- The `Matrix` object: `_height`, `_width` and the row-pointer array
`_data`, modelled as a list of rows.  (The `_id` field of the source is
never read by any operation and is omitted.) -/
structure Matrix (α : Type) where
  height : Nat
  width : Nat
  data : List (List α)
deriving DecidableEq, Repr

namespace Matrix

/-- Well-formedness of the storage: `_data` holds `height` rows of
`width` elements each (established by `allocDims` in every
constructor). -/
def wf {α : Type} (m : Matrix α) : Prop :=
  m.data.length = m.height ∧ ∀ row ∈ m.data, row.length = m.width

instance {α : Type} (m : Matrix α) : Decidable (wf m) := by
  unfold wf; infer_instance

/-- The raw memory read `_data[y][x]`: `some` when the location exists,
`none` when the dereference is out of bounds. -/
def memRead {α : Type} (m : Matrix α) (y x : Nat) : Option α :=
  (m.data.get? y).bind (fun row => row.get? x)

/-- `get(y, x)`: `return _data[y][x];` — no bounds check; an
out-of-bounds dereference is undefined behaviour (`Err.ub`), never a
`BoundsError`. -/
def get {α : Type} (m : Matrix α) (y x : Nat) : Except Err α :=
  match m.memRead y x with
  | some v => .ok v
  | none => .error .ub

/-- `set(y, x, dat)`: `_data[y][x] = dat;` — no bounds check; the
returned matrix is the post-state of `*this`. -/
def set {α : Type} (m : Matrix α) (y x : Nat) (dat : α) : Except Err (Matrix α) :=
  match m.memRead y x with
  | some _ => .ok { m with data := m.data.set y ((m.data.getD y []).set x dat) }
  | none => .error .ub

/-- In-bounds element access as used inside the loops of the member
functions (there every `get` call is in bounds, so the `0` default
never materialises under `wf`). -/
def entry {α : Type} [Zero α] (m : Matrix α) (y x : Nat) : α :=
  (m.data.getD y []).getD x 0

/-- `transpose(src)`: builds `ret(src.w(), src.h())` and sets
`ret[w][h] = src[h][w]` for every `h < src.h()`, `w < src.w()`. -/
def transpose {α : Type} [Zero α] (src : Matrix α) : Matrix α :=
  { height := src.width
    width := src.height
    data := (List.range src.width).map (fun w =>
      (List.range src.height).map (fun h => src.entry h w)) }

/-- `dot(lhs, rhs)`: throws on `lhs.w() != rhs.h()`, otherwise builds
`ret(lhs.h(), rhs.w())` with
`ret[r][c] = Σ_i lhs[r][i] * rhs[i][c]`, the sum accumulated
left-to-right from `val_t sum = 0`. -/
def dot {α : Type} [Zero α] [Add α] [Mul α] (lhs rhs : Matrix α) :
    Except Err (Matrix α) :=
  if lhs.width ≠ rhs.height then .error .shape
  else .ok
    { height := lhs.height
      width := rhs.width
      data := (List.range lhs.height).map (fun r =>
        (List.range rhs.width).map (fun c =>
          (List.range lhs.width).foldl
            (fun sum i => sum + lhs.entry r i * rhs.entry i c) 0)) }

/-- `operator-=(o)`: checks `w() != o.w() || h() != o.h()` before any
write, then sets `this[i][j] ← this[i][j] - o.get(i, j)`.  The result
is the pair of post-states of `*this` and `o` (the code writes only to
`*this`; `o` is taken by const reference) together with the error
thrown, if any: on a throw no write has happened yet, so `*this` keeps
its pre-call state. -/
def subAssign {α : Type} [Zero α] [Sub α] (a o : Matrix α) :
    (Matrix α × Matrix α) × Option Err :=
  if a.width ≠ o.width ∨ a.height ≠ o.height then ((a, o), some .shape)
  else
    (({ a with data := (List.range a.height).map (fun i =>
        (List.range a.width).map (fun j => a.entry i j - o.entry i j)) },
      o), none)

/-- `operator*=(o)`: same shape check, then element-wise
`this[i][j] ← this[i][j] * o.get(i, j)` (Hadamard product). -/
def mulAssign {α : Type} [Zero α] [Mul α] (a o : Matrix α) :
    (Matrix α × Matrix α) × Option Err :=
  if a.width ≠ o.width ∨ a.height ≠ o.height then ((a, o), some .shape)
  else
    (({ a with data := (List.range a.height).map (fun i =>
        (List.range a.width).map (fun j => a.entry i j * o.entry i j)) },
      o), none)

/-- `Matrix(const std::vector<std::vector<val_t>>& src)`: delegates to
the shape constructor with `(src.size(), src[0].size())` — reading
`src[0]` unconditionally, undefined behaviour on an empty vector —
then copies row by row, throwing on the first row whose size differs
from `_width`. -/
def fromRows {α : Type} (src : List (List α)) : Except Err (Matrix α) :=
  match src.get? 0 with
  | none => .error .ub
  | some row0 =>
    if src.all (fun row => row.length = row0.length) then
      .ok { height := src.length, width := row0.length, data := src }
    else .error .shape

end Matrix

/-- The C run-time's pseudo-random generator state transition, modelling
`std::rand()`'s linear congruential generator: the state is global and
advanced once per call. -/
def randStep (g : Nat) : Nat := (1103515245 * g + 12345) % 2 ^ 31

/-- `RAND_MAX` of the modelled generator. -/
def RAND_MAX : Nat := 2 ^ 31 - 1

/-- One `std::rand()` call: returns the drawn value (in
`[0, RAND_MAX]`) and the new global state. -/
def randCall (g : Nat) : Nat × Nat := (randStep g, randStep g)

/-- One element of a randomized matrix:
`(val_t)std::rand() / RAND_MAX * 2 - 1`, in exact arithmetic. -/
def randVal (g : Nat) : ℚ × Nat :=
  let (r, g') := randCall g
  ((r : ℚ) / (RAND_MAX : ℚ) * 2 - 1, g')

/-- One row of the inner fill loop `for (j = 0; j < _width; ++j)`,
threading the global generator state. -/
def fillRowRandom : Nat → Nat → List ℚ × Nat
  | 0, g => ([], g)
  | w + 1, g =>
    let (v, g') := randVal g
    let (rest, g'') := fillRowRandom w g'
    (v :: rest, g'')

/-- The outer fill loop `for (i = 0; i < _height; ++i)`. -/
def fillRandom : Nat → Nat → Nat → List (List ℚ) × Nat
  | 0, _, g => ([], g)
  | h + 1, w, g =>
    let (row, g') := fillRowRandom w g
    let (rest, g'') := fillRandom h w g'
    (row :: rest, g'')

/-- The shape constructor `Matrix(height, width, random = 0)`: when
`random ≠ 0` it reseeds the global generator (`std::srand(random)`)
and fills every element with a scaled `std::rand()` sample; when
`random = 0` every element is set to `0`.  `g` is the incoming global
generator state; the new global state is returned alongside the
constructed matrix. -/
def ctorShape (height width : Nat) (random : Nat) (g : Nat) :
    Matrix ℚ × Nat :=
  if random ≠ 0 then
    let (d, g') := fillRandom height width random
    ({ height := height, width := width, data := d }, g')
  else
    ({ height := height, width := width,
       data := List.replicate height (List.replicate width (0 : ℚ)) }, g)

/-- Fixed-point rendering of `n` with exactly three digits after the
decimal point, `n` being the value scaled by `1000` and rounded. -/
def fixed3String (n : Nat) : String :=
  toString (n / 1000) ++ "." ++
    (let frac := n % 1000
     (if frac < 100 then "0" else "") ++ (if frac < 10 then "0" else "") ++
       toString frac)

/-- The `printf(" %+1.3f", get(i, j))` conversion of one element: a
leading space, an explicit sign, and the magnitude rounded to three
decimal digits — the field ignores the `precision` argument of
`print`, which is unused in the body. -/
def fmtElem (q : ℚ) : String :=
  (if q < 0 then " -" else " +") ++
    fixed3String (Int.toNat (Int.floor (|q| * 1000 + 1 / 2)))

/-- `print(precision = 3)`: each row on its own line, each element
through `printf(" %+1.3f", ...)`, a newline after each row and one
final newline (a blank line after the last row).  The `precision`
parameter is accepted but never read by the body. -/
def printMatrix (m : Matrix ℚ) (precision : Nat) : String :=
  String.join ((List.range m.height).map (fun i =>
    String.join ((List.range m.width).map (fun j => fmtElem (m.entry i j)))
      ++ "\n")) ++ "\n"

end NN

open NN NN.Matrix

/-- S1 left operand. -/
def exL : Matrix ℚ := ⟨2, 3, [[1, 2, 3], [4, 5, 6]]⟩

/-- S1 right operand. -/
def exR : Matrix ℚ := ⟨3, 2, [[7, 8], [9, 10], [11, 12]]⟩

/-- S3 left operand. -/
def exA : Matrix ℚ := ⟨2, 2, [[1, 2], [3, 4]]⟩

/-- S3 right operand (all ones). -/
def exJ : Matrix ℚ := ⟨2, 2, [[1, 1], [1, 1]]⟩

/- ### Helper lemmas -/

theorem getD_map_range {α : Type} (f : Nat → α) (n r : Nat) (d : α) (h : r < n) :
    ((List.range n).map f).getD r d = f r := by
  rw [List.getD_eq_getElem?_getD, List.getElem?_map, List.getElem?_range h]
  rfl

theorem entry_build {α : Type} [Zero α] (hh ww H W : Nat) (f : Nat → Nat → α)
    (r c : Nat) (hr : r < H) (hc : c < W) :
    Matrix.entry ⟨hh, ww, (List.range H).map (fun i => (List.range W).map (f i))⟩ r c
      = f r c := by
  show (((List.range H).map (fun i => (List.range W).map (f i))).getD r []).getD c 0 = f r c
  rw [getD_map_range _ _ _ _ hr, getD_map_range _ _ _ _ hc]

theorem foldl_add_range {M : Type} [AddCommMonoid M] (g : Nat → M) (n : Nat) :
    (List.range n).foldl (fun s i => s + g i) 0 = ∑ i in Finset.range n, g i := by
  induction n with
  | zero => simp
  | succ n ih => rw [List.range_succ, List.foldl_append, ih, Finset.sum_range_succ]; simp

/- ### Claim theorems -/

/-- C1: for every pair of matrices `L`, `R` with `L.W = R.H`, `dot(L, R)`
returns a new matrix `P` with `P.H = L.H`, `P.W = R.W`, and
`P[r, c] = Σ_{k < L.W} L[r, k] · R[k, c]` (accumulated left-to-right
from `0`); in particular `dot([[1,2,3],[4,5,6]], [[7,8],[9,10],[11,12]])
= [[58,64],[139,154]]`. -/
theorem dot_spec :
    (∀ (L R : NN.Matrix ℚ), L.width = R.height →
      ∃ P : NN.Matrix ℚ, NN.Matrix.dot L R = .ok P ∧ P.height = L.height ∧
        P.width = R.width ∧
        ∀ r c, r < L.height → c < R.width →
          P.entry r c = ∑ k in Finset.range L.width, L.entry r k * R.entry k c) ∧
    NN.Matrix.dot exL exR = .ok ⟨2, 2, [[58, 64], [139, 154]]⟩ := by
  constructor
  · intro L R h
    refine ⟨⟨L.height, R.width,
      (List.range L.height).map (fun r => (List.range R.width).map (fun c =>
        (List.range L.width).foldl
          (fun sum i => sum + L.entry r i * R.entry i c) 0))⟩, ?_, rfl, rfl, ?_⟩
    · rw [NN.Matrix.dot, if_neg (by simp [h])]
    · intro r c hr hc
      rw [entry_build _ _ _ _ _ _ _ hr hc, foldl_add_range]
  · norm_num [NN.Matrix.dot, NN.Matrix.entry, exL, exR, List.range_succ]

/-- C1 witness: the universal part of `dot_spec` applied to the concrete
S1 operands. -/
theorem dot_spec_witness :
    ∃ P : NN.Matrix ℚ, NN.Matrix.dot exL exR = .ok P ∧ P.height = exL.height ∧
      P.width = exR.width ∧
      ∀ r c, r < exL.height → c < exR.width →
        P.entry r c = ∑ k in Finset.range exL.width, exL.entry r k * exR.entry k c :=
  dot_spec.1 exL exR (by decide)

/-- C2: `sub_assign` and `mul_assign` fail with a shape error whenever
the heights or the widths differ, `dot` fails with a shape error
whenever `L.W ≠ R.H`, and on such a failure the target matrix keeps its
pre-call shape and every pre-call element (the check precedes every
write, so the post-state of `*this` is its pre-call state). -/
theorem shape_mismatch_spec :
    (∀ (A B : NN.Matrix ℚ), A.height ≠ B.height ∨ A.width ≠ B.width →
      NN.Matrix.subAssign A B = ((A, B), some .shape) ∧
      NN.Matrix.mulAssign A B = ((A, B), some .shape)) ∧
    (∀ (L R : NN.Matrix ℚ), L.width ≠ R.height →
      NN.Matrix.dot L R = .error .shape) := by
  refine ⟨fun A B h => ⟨?_, ?_⟩, fun L R h => ?_⟩
  · rw [NN.Matrix.subAssign, if_pos (by tauto)]
  · rw [NN.Matrix.mulAssign, if_pos (by tauto)]
  · rw [NN.Matrix.dot, if_pos h]

/-- C2 witness: `shape_mismatch_spec` applied to concrete mismatched
operands (`2×2` against `2×3` for the element-wise operators, `2×3`
against `2×2` for `dot`). -/
theorem shape_mismatch_spec_witness :
    (NN.Matrix.subAssign exA exL = ((exA, exL), some .shape) ∧
      NN.Matrix.mulAssign exA exL = ((exA, exL), some .shape)) ∧
    NN.Matrix.dot exL exA = .error .shape :=
  ⟨shape_mismatch_spec.1 exA exL (by decide),
   shape_mismatch_spec.2 exL exA (by decide)⟩

/-- C3: for same-shape `A`, `B`, `sub_assign` (resp. `mul_assign`)
succeeds, preserves the shape of `A`, leaves `B` entirely unchanged,
and updates every element to `A[r,c] − B[r,c]` (resp.
`A[r,c] · B[r,c]`, the Hadamard product); in particular
`sub_assign([[1,2],[3,4]], [[1,1],[1,1]]) = [[0,1],[2,3]]`. -/
theorem elementwise_assign_spec :
    (∀ (A B : NN.Matrix ℚ), A.height = B.height → A.width = B.width →
      (NN.Matrix.subAssign A B).2 = none ∧
      (NN.Matrix.subAssign A B).1.2 = B ∧
      (NN.Matrix.subAssign A B).1.1.height = A.height ∧
      (NN.Matrix.subAssign A B).1.1.width = A.width ∧
      (NN.Matrix.mulAssign A B).2 = none ∧
      (NN.Matrix.mulAssign A B).1.2 = B ∧
      (NN.Matrix.mulAssign A B).1.1.height = A.height ∧
      (NN.Matrix.mulAssign A B).1.1.width = A.width ∧
      ∀ r c, r < A.height → c < A.width →
        (NN.Matrix.subAssign A B).1.1.entry r c = A.entry r c - B.entry r c ∧
        (NN.Matrix.mulAssign A B).1.1.entry r c = A.entry r c * B.entry r c) ∧
    NN.Matrix.subAssign exA exJ = ((⟨2, 2, [[0, 1], [2, 3]]⟩, exJ), none) := by
  constructor
  · intro A B hh hw
    rw [NN.Matrix.subAssign, if_neg (by simp [hh, hw]),
      NN.Matrix.mulAssign, if_neg (by simp [hh, hw])]
    refine ⟨rfl, rfl, rfl, rfl, rfl, rfl, rfl, rfl, fun r c hr hc => ⟨?_, ?_⟩⟩
    · exact entry_build _ _ _ _ _ _ _ hr hc
    · exact entry_build _ _ _ _ _ _ _ hr hc
  · norm_num [NN.Matrix.subAssign, NN.Matrix.entry, exA, exJ, List.range_succ]

/-- C3 witness: `elementwise_assign_spec` applied to the concrete S3
operands, evaluated at element `(0, 1)`. -/
theorem elementwise_assign_spec_witness :
    (NN.Matrix.subAssign exA exJ).2 = none ∧
    (NN.Matrix.subAssign exA exJ).1.2 = exJ ∧
    (NN.Matrix.subAssign exA exJ).1.1.entry 0 1
      = exA.entry 0 1 - exJ.entry 0 1 ∧
    (NN.Matrix.mulAssign exA exJ).1.1.entry 0 1
      = exA.entry 0 1 * exJ.entry 0 1 := by
  have h := elementwise_assign_spec.1 exA exJ (by decide) (by decide)
  exact ⟨h.1, h.2.1, (h.2.2.2.2.2.2.2.2 0 1 (by decide) (by decide)).1,
    (h.2.2.2.2.2.2.2.2 0 1 (by decide) (by decide)).2⟩

/-- C6: `transpose(S)` returns a matrix `T` with `T.H = S.W`,
`T.W = S.H`, `T[c, r] = S[r, c]` for all in-range `(r, c)` (`S` itself
is taken by const reference and never written); in particular
`transpose([[1,2,3],[4,5,6]]) = [[1,4],[2,5],[3,6]]`. -/
theorem transpose_spec :
    (∀ (S : NN.Matrix ℚ),
      (NN.Matrix.transpose S).height = S.width ∧
      (NN.Matrix.transpose S).width = S.height ∧
      ∀ r c, r < S.height → c < S.width →
        (NN.Matrix.transpose S).entry c r = S.entry r c) ∧
    NN.Matrix.transpose exL = ⟨3, 2, [[1, 4], [2, 5], [3, 6]]⟩ := by
  constructor
  · intro S
    exact ⟨rfl, rfl, fun r c hr hc => entry_build _ _ _ _ _ _ _ hc hr⟩
  · norm_num [NN.Matrix.transpose, NN.Matrix.entry, exL, List.range_succ]

/-- C6 witness: `transpose_spec` applied to the concrete S2 operand,
evaluated at element `(1, 2)`. -/
theorem transpose_spec_witness :
    (NN.Matrix.transpose exL).height = exL.width ∧
    (NN.Matrix.transpose exL).width = exL.height ∧
    (NN.Matrix.transpose exL).entry 2 1 = exL.entry 1 2 :=
  ⟨(transpose_spec.1 exL).1, (transpose_spec.1 exL).2.1,
   (transpose_spec.1 exL).2.2 1 2 (by decide) (by decide)⟩

/- ### Random constructor lemmas -/

theorem randStep_le (g : Nat) : NN.randStep g ≤ NN.RAND_MAX := by
  have h := Nat.mod_lt (1103515245 * g + 12345) (show 0 < 2 ^ 31 by norm_num)
  unfold NN.randStep NN.RAND_MAX
  omega

theorem randVal_bounds (g : Nat) :
    -1 ≤ (NN.randVal g).1 ∧ (NN.randVal g).1 ≤ 1 := by
  have hval : (NN.randVal g).1
      = (NN.randStep g : ℚ) / (NN.RAND_MAX : ℚ) * 2 - 1 := by
    simp [NN.randVal, NN.randCall]
  have hpos : (0 : ℚ) < (NN.RAND_MAX : ℚ) := by
    unfold NN.RAND_MAX; norm_num
  have h0 : (0 : ℚ) ≤ (NN.randStep g : ℚ) / (NN.RAND_MAX : ℚ) :=
    div_nonneg (Nat.cast_nonneg _) (le_of_lt hpos)
  have h1 : (NN.randStep g : ℚ) / (NN.RAND_MAX : ℚ) ≤ 1 :=
    (div_le_one hpos).mpr (by exact_mod_cast randStep_le g)
  rw [hval]
  constructor <;> linarith

theorem fillRowRandom_spec (w : Nat) : ∀ g : Nat,
    (NN.fillRowRandom w g).1.length = w ∧
    ∀ v ∈ (NN.fillRowRandom w g).1, -1 ≤ v ∧ v ≤ 1 := by
  induction w with
  | zero => intro g; simp [NN.fillRowRandom]
  | succ w ih =>
    intro g
    have hred : (NN.fillRowRandom (w + 1) g).1
        = (NN.randVal g).1 :: (NN.fillRowRandom w (NN.randVal g).2).1 := rfl
    rw [hred]
    refine ⟨by simp [(ih _).1], ?_⟩
    intro v hv
    rcases List.mem_cons.mp hv with h | h
    · exact h ▸ randVal_bounds g
    · exact (ih _).2 v h

theorem fillRandom_spec (h w : Nat) : ∀ g : Nat,
    (NN.fillRandom h w g).1.length = h ∧
    ∀ row ∈ (NN.fillRandom h w g).1,
      row.length = w ∧ ∀ v ∈ row, -1 ≤ v ∧ v ≤ 1 := by
  induction h with
  | zero => intro g; simp [NN.fillRandom]
  | succ h ih =>
    intro g
    have hred : (NN.fillRandom (h + 1) w g).1
        = (NN.fillRowRandom w g).1
            :: (NN.fillRandom h w (NN.fillRowRandom w g).2).1 := rfl
    rw [hred]
    refine ⟨by simp [(ih _).1], ?_⟩
    intro row hrow
    rcases List.mem_cons.mp hrow with hx | hx
    · exact hx ▸ ⟨(fillRowRandom_spec w g).1, (fillRowRandom_spec w g).2⟩
    · exact (ih _).2 row hx

/-- C4: for every `H`, `W` and seed `s ≠ 0`, the randomized constructor
yields elements all lying in `[−1, 1]`, and its contents depend only on
`(H, W, s)` — the incoming global generator state is overwritten by
`srand(s)`, so two constructions with the same seed agree element for
element. -/
theorem random_ctor_spec :
    ∀ (H W s : Nat), s ≠ 0 → ∀ (g g' : Nat),
      (∀ r c, r < H → c < W →
        -1 ≤ (NN.ctorShape H W s g).1.entry r c ∧
          (NN.ctorShape H W s g).1.entry r c ≤ 1) ∧
      (NN.ctorShape H W s g).1 = (NN.ctorShape H W s g').1 := by
  intro H W s hs g g'
  have hred : ∀ x : Nat, (NN.ctorShape H W s x).1
      = ⟨H, W, (NN.fillRandom H W s).1⟩ := by
    intro x; simp [NN.ctorShape, hs]
  refine ⟨?_, by rw [hred, hred]⟩
  intro r c hr hc
  rw [hred]
  obtain ⟨hlen, hrows⟩ := fillRandom_spec H W s
  have hrlt : r < (NN.fillRandom H W s).1.length := by rw [hlen]; exact hr
  have hrowmem : (NN.fillRandom H W s).1[r] ∈ (NN.fillRandom H W s).1 :=
    List.getElem_mem hrlt
  obtain ⟨hrowlen, hvals⟩ := hrows _ hrowmem
  have hclt : c < ((NN.fillRandom H W s).1[r]).length := by
    rw [hrowlen]; exact hc
  have hentry : (⟨H, W, (NN.fillRandom H W s).1⟩ : NN.Matrix ℚ).entry r c
      = ((NN.fillRandom H W s).1[r])[c] := by
    show (((NN.fillRandom H W s).1.getD r []).getD c 0) = _
    rw [List.getD_eq_getElem _ _ hrlt, List.getD_eq_getElem _ _ hclt]
  rw [hentry]
  exact hvals _ (List.getElem_mem hclt)

/-- C4 witness: `random_ctor_spec` for a `2×2` matrix with seed `42`,
evaluated at element `(0, 0)` and at two different incoming generator
states. -/
theorem random_ctor_spec_witness :
    (-1 ≤ (NN.ctorShape 2 2 42 1).1.entry 0 0 ∧
      (NN.ctorShape 2 2 42 1).1.entry 0 0 ≤ 1) ∧
    (NN.ctorShape 2 2 42 1).1 = (NN.ctorShape 2 2 42 999).1 :=
  ⟨(random_ctor_spec 2 2 42 (by decide) 1 999).1 0 0 (by decide) (by decide),
   (random_ctor_spec 2 2 42 (by decide) 1 999).2⟩

/-- C5: the shape constructor with the sentinel seed `0` — zero
initialization, not randomization — yields an `H×W` matrix whose every
element at `(r, c)` with `r < H`, `c < W` is the additive identity. -/
theorem zeros_ctor_spec :
    ∀ (H W g : Nat),
      (NN.ctorShape H W 0 g).1.height = H ∧
      (NN.ctorShape H W 0 g).1.width = W ∧
      ∀ r c, r < H → c < W → (NN.ctorShape H W 0 g).1.entry r c = 0 := by
  intro H W g
  have hred : (NN.ctorShape H W 0 g).1
      = ⟨H, W, List.replicate H (List.replicate W (0 : ℚ))⟩ := by
    simp [NN.ctorShape]
  refine ⟨by rw [hred], by rw [hred], fun r c hr hc => ?_⟩
  rw [hred]
  show ((List.replicate H (List.replicate W (0 : ℚ))).getD r []).getD c 0 = 0
  simp [List.getD_eq_getElem?_getD, List.getElem?_replicate, hr, hc]

/-- C5 witness: `zeros_ctor_spec` for a `3×2` matrix, evaluated at
element `(1, 1)`. -/
theorem zeros_ctor_spec_witness :
    (NN.ctorShape 3 2 0 7).1.height = 3 ∧
    (NN.ctorShape 3 2 0 7).1.width = 2 ∧
    (NN.ctorShape 3 2 0 7).1.entry 1 1 = 0 :=
  ⟨(zeros_ctor_spec 3 2 7).1, (zeros_ctor_spec 3 2 7).2.1,
   (zeros_ctor_spec 3 2 7).2.2 1 1 (by decide) (by decide)⟩

/-- C7: for every non-empty 2D sequence `S` (see `from_rows_empty` for
why non-emptiness is a precondition), `from_rows(S)` yields a matrix
with `H = |S|`, `W = |S[0]|` whose storage is a copy of `S` when every
row has length `W`, and fails with the shape error exactly when some
row's length differs from `W`; in particular `from_rows([[1,2],[3]])`
fails with the shape error. -/
theorem from_rows_spec :
    (∀ (S : List (List ℚ)), S ≠ [] →
      ((∀ row ∈ S, row.length = (S.headD []).length) →
        NN.Matrix.fromRows S
          = .ok ⟨S.length, (S.headD []).length, S⟩) ∧
      ((∃ row ∈ S, row.length ≠ (S.headD []).length) →
        NN.Matrix.fromRows S = .error .shape)) ∧
    NN.Matrix.fromRows ([[1, 2], [3]] : List (List ℚ)) = .error .shape := by
  constructor
  · intro S hS
    match S, hS with
    | row0 :: rest, _ =>
      constructor
      · intro hall
        have hb : (row0 :: rest).all (fun row => row.length = row0.length) = true := by
          simp only [List.all_eq_true, decide_eq_true_eq]
          intro row hrow
          simpa using hall row hrow
        show NN.Matrix.fromRows (row0 :: rest) = _
        rw [NN.Matrix.fromRows]
        simp only [List.get?]
        rw [if_pos hb]
        simp
      · intro ⟨row, hrow, hne⟩
        have hb : ¬((row0 :: rest).all (fun row => row.length = row0.length) = true) := by
          simp only [List.all_eq_true, decide_eq_true_eq]
          intro hcontra
          exact hne (by simpa using hcontra row hrow)
        rw [NN.Matrix.fromRows]
        simp only [List.get?]
        rw [if_neg hb]
  · rfl

/-- C7 witness: `from_rows_spec` applied to the rectangular sequence
`[[1,2],[3,4]]`. -/
theorem from_rows_spec_witness :
    NN.Matrix.fromRows ([[1, 2], [3, 4]] : List (List ℚ))
      = .ok ⟨([[1, 2], [3, 4]] : List (List ℚ)).length,
             (([[1, 2], [3, 4]] : List (List ℚ)).headD []).length,
             [[1, 2], [3, 4]]⟩ :=
  (from_rows_spec.1 _ (by simp)).1 (by decide)

/-- C8 (code behaviour at the failing input): `print` renders every
element with exactly three decimal digits regardless of the `precision`
argument — the body hard-codes `"%+1.3f"` and never reads `precision`,
so the output for `precision = 5` equals the output for any other
precision, contradicting the function's own doc comment ("Sets
precision of output"). -/
theorem print_ignores_precision :
    (∀ (precision1 precision2 : Nat) (m : NN.Matrix ℚ),
      NN.printMatrix m precision1 = NN.printMatrix m precision2) ∧
    NN.printMatrix ⟨1, 1, [[(1 : ℚ) / 2]]⟩ 5 = " +0.500\n\n" := by
  refine ⟨fun p q m => rfl, ?_⟩
  have hq : ((⟨1, 1, [[(1 : ℚ) / 2]]⟩ : NN.Matrix ℚ)).entry 0 0 = 1 / 2 := rfl
  have hfloor : Int.floor (|(1 : ℚ) / 2| * 1000 + 1 / 2) = (500 : ℤ) := by
    rw [abs_of_nonneg (by norm_num : (0 : ℚ) ≤ 1 / 2)]
    rw [show (1 : ℚ) / 2 * 1000 + 1 / 2 = 1001 / 2 by norm_num]
    rw [Int.floor_eq_iff]
    norm_num
  have e1 : NN.fmtElem ((1 : ℚ) / 2) = " +0.500" := by
    rw [NN.fmtElem, if_neg (by norm_num), hfloor]
    rfl
  show String.join
      [String.join
        [NN.fmtElem ((⟨1, 1, [[(1 : ℚ) / 2]]⟩ : NN.Matrix ℚ).entry 0 0)]
        ++ "\n"] ++ "\n" = " +0.500\n\n"
  rw [hq, e1]
  rfl

/-- C9: `get` and `set` perform no bounds check: on any well-formed
matrix, an access with `r ≥ H` or `c ≥ W` is never rejected with the
recommended `BoundsError` signal — the unguarded dereference of
`_data[y][x]` is undefined behaviour. -/
theorem get_set_unchecked :
    ∀ (m : NN.Matrix ℚ) (r c : Nat) (v : ℚ), m.wf →
      m.height ≤ r ∨ m.width ≤ c →
      NN.Matrix.get m r c = .error .ub ∧
      NN.Matrix.set m r c v = .error .ub ∧
      NN.Matrix.get m r c ≠ .error .bounds ∧
      NN.Matrix.set m r c v ≠ .error .bounds := by
  intro m r c v hm hout
  have hnone : m.memRead r c = none := by
    rcases hout with hr | hc
    · rw [NN.Matrix.memRead, List.get?_eq_none.mpr (by rw [hm.1]; exact hr)]
      rfl
    · cases hrow : m.data.get? r with
      | none => rw [NN.Matrix.memRead, hrow]; rfl
      | some row =>
        have hlen : row.length = m.width := hm.2 row (List.get?_mem hrow)
        have hnc : row.get? c = none := List.get?_eq_none.mpr (hlen.trans_le hc)
        rw [NN.Matrix.memRead, hrow]
        show row.get? c = none
        exact hnc
  refine ⟨?_, ?_, ?_, ?_⟩ <;> simp [NN.Matrix.get, NN.Matrix.set, hnone]

/-- C9 witness: `get_set_unchecked` on a well-formed `1×1` matrix at
the out-of-bounds row index `3`. -/
theorem get_set_unchecked_witness :
    NN.Matrix.get (⟨1, 1, [[(5 : ℚ)]]⟩ : NN.Matrix ℚ) 3 0 = .error .ub ∧
    NN.Matrix.set (⟨1, 1, [[(5 : ℚ)]]⟩ : NN.Matrix ℚ) 3 0 7 = .error .ub ∧
    NN.Matrix.get (⟨1, 1, [[(5 : ℚ)]]⟩ : NN.Matrix ℚ) 3 0 ≠ .error .bounds ∧
    NN.Matrix.set (⟨1, 1, [[(5 : ℚ)]]⟩ : NN.Matrix ℚ) 3 0 7 ≠ .error .bounds :=
  get_set_unchecked _ 3 0 7 (by constructor <;> simp) (Or.inl (by decide))

/-- C10: `from_rows` on the empty sequence dereferences `src[0]` before
any rectangularity check — undefined behaviour (`Err.ub`), not an empty
matrix and not a shape error. -/
theorem from_rows_empty :
    NN.Matrix.fromRows ([] : List (List ℚ)) = .error .ub := rfl
